import Mathlib

/-!
# Verification of the WebP converter core (src/app.js)

Shallow embedding of the complexity estimator, the quality mapper and the
adaptive encode loop of `src/app.js`, with proofs of the spec's claims.

Modelling conventions:

* JavaScript numbers are modelled by exact rationals (`ℚ`); channel samples
  and buffer sizes by `ℕ`, integer quantities by `ℤ`.
* A JavaScript `NaN` result is modelled by `none` on an `Option` type:
  `parseInt` of a non-numeric string is `none`, and the division
  `diffSum / maxDiff` with `maxDiff = 0` (which is `0/0 = NaN` in JS)
  yields `none`.
* The external codec (`canvas.toBlob`) is a deterministic function from the
  image and the quality fraction to a byte buffer.
-/

/-- One RGBA sample of the decoded (and possibly resampled) pixel buffer.
`computeComplexity` walks the flat `data` array four bytes at a time, so a
`List Pixel` models the array exactly. -/
structure Pixel where
  r : ℕ
  g : ℕ
  b : ℕ
  a : ℕ
deriving DecidableEq

/-- `Math.abs(data[i] - data[i+4]) + ... ` : the per-pixel diff between two
adjacent samples, summing the three colour channels (app.js lines 88-91). -/
def pixelDiff (p q : Pixel) : ℕ :=
  ((p.r : ℤ) - q.r).natAbs + ((p.g : ℤ) - q.g).natAbs + ((p.b : ℤ) - q.b).natAbs

/-- The accumulation loop of `computeComplexity` (app.js lines 85-94):
`for (let i = 0; i < data.length - 4; i += 4)` visits every pixel that has a
successor, adds its diff to `diffSum` and adds `765 = 255 * 3` to `maxDiff`.
Returns `(diffSum, maxDiff)`. -/
def diffLoop : List Pixel → ℕ × ℕ
  | p :: q :: rest =>
      let t := diffLoop (q :: rest)
      (pixelDiff p q + t.1, t.2 + 765)
  | _ => (0, 0)

/-- `computeComplexity` (app.js lines 64-97) on the resampled pixel buffer:
`diffSum / maxDiff`.  When the buffer has fewer than two pixels no iteration
runs, `maxDiff = 0`, and the JS division is `0/0 = NaN`, modelled as `none`. -/
def computeComplexity (data : List Pixel) : Option ℚ :=
  let s := diffLoop data
  if s.2 = 0 then none
  else some ((s.1 : ℚ) / (s.2 : ℚ))

/-- JavaScript `Math.round` on a (non-negative) number: `⌊x + 1/2⌋`. -/
def jsRound (x : ℚ) : ℤ := ⌊x + 1/2⌋

/-- The quality mapper (app.js line 48):
`Math.round(60 + (90 - 60) * complexity)`. -/
def mapToQuality (score : ℚ) : ℤ := jsRound (60 + (90 - 60) * score)

/-- An encoded byte buffer: `blob.size` plus opaque content. -/
structure Blob where
  size : ℕ
  bytes : List ℕ
deriving DecidableEq

/-- The external codec: `canvas.toBlob(resolve, 'image/webp', q)`, a
deterministic function of the drawn image and the quality fraction. -/
abbrev Codec := List Pixel → ℚ → Blob

/-- Result of the adaptive search loop: final quality fraction, final blob,
and the trace of quality fractions passed to the codec inside the loop. -/
structure SearchResult where
  q : ℚ
  blob : Blob
  trace : List ℚ
deriving DecidableEq

/-- The adaptive search loop of `convertEntry` (app.js lines 162-167):
`while (blob.size > targetKb * 1024 && q > 0.2) { q -= 0.05; blob = await ... }`.
`target` is already in bytes. -/
def searchLoop (codec : Codec) (img : List Pixel) (target : ℤ) (q : ℚ) (blob : Blob) :
    SearchResult :=
  if h : (blob.size : ℤ) > target ∧ q > 1/5 then
    let q2 := q - 1/20
    let b2 := codec img q2
    let r := searchLoop codec img target q2 b2
    ⟨r.q, r.blob, q2 :: r.trace⟩
  else ⟨q, blob, []⟩
termination_by (⌈(q - 1/5) * 20⌉).toNat
decreasing_by
  have e1 : (q - 1/20 - 1/5) * 20 = (q - 1/5) * 20 - 1 := by ring
  rw [e1, Int.ceil_sub_one]
  have hpos : (0:ℚ) < (q - 1/5) * 20 := by linarith [h.2]
  have hc : 1 ≤ ⌈(q - 1/5) * 20⌉ := Int.ceil_pos.mpr hpos
  omega

/-- One work item: the user-chosen (or suggested) integer quality, the decoded
image, and the converted blob if any (app.js lines 49-54). -/
structure Entry where
  quality : ℤ
  img : List Pixel
  convertedBlob : Option Blob
deriving DecidableEq

/-- The outcome of `convertEntry`: the blob stored on the entry, the final
quality fraction, the reported quality `Math.round(quality * 100)`, the list of
quality fractions passed to the codec (in order), and the updated entry. -/
structure ConvertResult where
  blob : Blob
  finalQ : ℚ
  reported : ℤ
  tried : List ℚ
  entry : Entry
deriving DecidableEq

/-- `convertEntry` (app.js lines 150-173).  `targetKb` is the result of
`parseInt(targetSizeInput.value, 10)`, with `none` modelling `NaN` (empty or
non-numeric input).  The adaptive loop runs only when
`!isNaN(targetKb) && targetKb > 0`. -/
def convertEntry (codec : Codec) (targetKb : Option ℤ) (e : Entry) : ConvertResult :=
  let q0 : ℚ := (e.quality : ℚ) / 100
  let b0 := codec e.img q0
  match targetKb with
  | some t =>
      if 0 < t then
        let r := searchLoop codec e.img (t * 1024) q0 b0
        ⟨r.blob, r.q, jsRound (r.q * 100), q0 :: r.trace,
          { e with convertedBlob := some r.blob }⟩
      else
        ⟨b0, q0, jsRound (q0 * 100), [q0], { e with convertedBlob := some b0 }⟩
  | none =>
      ⟨b0, q0, jsRound (q0 * 100), [q0], { e with convertedBlob := some b0 }⟩

/-- The `convertAll` click handler (app.js lines 175-183): walk `fileEntries`
in order and convert exactly the entries whose `convertedBlob` is null.  Each
output pair carries the (possibly updated) entry together with the number of
codec invocations spent on it. -/
def convertAll (codec : Codec) (targetKb : Option ℤ) : List Entry → List (Entry × ℕ)
  | [] => []
  | e :: rest =>
      match e.convertedBlob with
      | some _ => (e, 0) :: convertAll codec targetKb rest
      | none =>
          let r := convertEntry codec targetKb e
          (r.entry, r.tried.length) :: convertAll codec targetKb rest

/-- A codec whose output always exceeds any realistic byte budget: every encode
returns a one-megabyte buffer regardless of quality.  Used to drive the
adaptive loop all the way down. -/
def bigCodec : Codec := fun _ _ => ⟨1000000, []⟩

/-- A codec returning a tiny five-byte buffer at every quality. -/
def tinyCodec : Codec := fun _ _ => ⟨5, []⟩

/-!  ## Theorems -/

/-- The `maxDiff` accumulator of `computeComplexity` ends at `765 * (N - 1)`
for a buffer of `N` pixels: the loop visits only pixels that have a
successor. -/
theorem diffLoop_maxDiff : ∀ data : List Pixel, (diffLoop data).2 = 765 * (data.length - 1)
  | [] => rfl
  | [_] => rfl
  | p :: q :: rest => by
      have ih := diffLoop_maxDiff (q :: rest)
      simp [diffLoop] at ih ⊢
      omega

/-- Claim C2: the spec requires a degenerate image (fewer than two pixels after
resampling) to be normalized to complexity 0, but `computeComplexity` runs no
loop iteration there, leaving `maxDiff = 0`, and `diffSum / maxDiff` is the JS
division `0 / 0 = NaN` (modelled `none`), not `some 0`: the guard is absent. -/
theorem c2_degenerate_nan :
    computeComplexity [⟨10, 20, 30, 255⟩] = none ∧
    computeComplexity ([] : List Pixel) = none ∧
    computeComplexity [⟨10, 20, 30, 255⟩] ≠ some 0 := by
  refine ⟨rfl, rfl, ?_⟩
  decide

/-- Claim C4: for every complexity score in `[0,1]` the suggested quality is
`round(60 + (90 - 60) * score)`, lies in `[60, 90]`, is monotone non-decreasing
in the score, and a complexity-0 (uniform) image gets suggested quality 60. -/
theorem c4_mapToQuality_spec (s t : ℚ) (hs0 : 0 ≤ s) (hs1 : s ≤ 1) (hst : s ≤ t)
    (ht1 : t ≤ 1) :
    mapToQuality s = jsRound (60 + (90 - 60) * s) ∧
    60 ≤ mapToQuality s ∧ mapToQuality s ≤ 90 ∧
    mapToQuality s ≤ mapToQuality t ∧ mapToQuality 0 = 60 := by
  have hdef : ∀ u : ℚ, mapToQuality u = ⌊60 + (90 - 60) * u + 1/2⌋ := fun u => rfl
  refine ⟨rfl, ?_, ?_, ?_, ?_⟩
  · rw [hdef]
    refine Int.le_floor.mpr ?_
    push_cast
    linarith
  · rw [hdef]
    have : ⌊60 + (90 - 60) * s + 1/2⌋ < 91 := by
      refine Int.floor_lt.mpr ?_
      push_cast
      linarith
    omega
  · rw [hdef, hdef]
    exact Int.floor_le_floor (by linarith)
  · rw [hdef]
    norm_num

/-- Witness for C4 at the concrete scores 0 and 1. -/
theorem c4_witness :
    (0:ℚ) ≤ 0 ∧ (0:ℚ) ≤ 1 ∧
    (mapToQuality 0 = jsRound (60 + (90 - 60) * 0) ∧
     60 ≤ mapToQuality 0 ∧ mapToQuality 0 ≤ 90 ∧
     mapToQuality 0 ≤ mapToQuality 1 ∧ mapToQuality 0 = 60) :=
  ⟨le_refl 0, by norm_num,
   c4_mapToQuality_spec 0 1 (by norm_num) (by norm_num) (by norm_num) (by norm_num)⟩

/-- Claim C5 counterexample: on a two-pixel buffer the code's `maxDiff` is
`765`, not `765 * 2` as the claim's "765 times the pixel count" states. -/
theorem c5_counterexample :
    (diffLoop [⟨0, 0, 0, 0⟩, ⟨0, 0, 0, 0⟩]).2
      ≠ 765 * ([⟨0, 0, 0, 0⟩, ⟨0, 0, 0, 0⟩] : List Pixel).length := by
  decide

/-- Claim C5 (amended): `maxDiff` equals `765 * (N - 1)` for a buffer of `N`
pixels, and for `N ≥ 2` the estimator returns `diffSum / (765 * (N - 1))`. -/
theorem c5_maxDiff_formula (data : List Pixel) (h2 : 2 ≤ data.length) :
    (diffLoop data).2 = 765 * (data.length - 1) ∧
    computeComplexity data
      = some (((diffLoop data).1 : ℚ) / ((765 * (data.length - 1) : ℕ) : ℚ)) := by
  have hm := diffLoop_maxDiff data
  have hne : (diffLoop data).2 ≠ 0 := by
    rw [hm]
    omega
  refine ⟨hm, ?_⟩
  simp only [computeComplexity, hm]
  rw [if_neg (by omega : ¬ 765 * (data.length - 1) = 0)]

/-- Witness for C5 on a concrete two-pixel buffer. -/
theorem c5_witness :
    2 ≤ ([⟨0, 0, 0, 255⟩, ⟨255, 0, 0, 255⟩] : List Pixel).length ∧
    ((diffLoop [⟨0, 0, 0, 255⟩, ⟨255, 0, 0, 255⟩]).2
        = 765 * (([⟨0, 0, 0, 255⟩, ⟨255, 0, 0, 255⟩] : List Pixel).length - 1) ∧
     computeComplexity [⟨0, 0, 0, 255⟩, ⟨255, 0, 0, 255⟩]
        = some (((diffLoop [⟨0, 0, 0, 255⟩, ⟨255, 0, 0, 255⟩]).1 : ℚ)
            / ((765 * (([⟨0, 0, 0, 255⟩, ⟨255, 0, 0, 255⟩] : List Pixel).length - 1) : ℕ) : ℚ))) :=
  ⟨by decide, c5_maxDiff_formula _ (by decide)⟩

/-- Claim C6: an empty or non-numeric target size (`parseInt` gives `NaN`,
modelled `none`) or a parsed value `≤ 0` disables the adaptive search: exactly
one codec invocation, and the blob and quality are those of that single call. -/
theorem c6_invalid_budget_single_call (codec : Codec) (e : Entry) (targetKb : Option ℤ)
    (h : targetKb = none ∨ ∃ t, targetKb = some t ∧ t ≤ 0) :
    (convertEntry codec targetKb e).tried = [(e.quality : ℚ) / 100] ∧
    (convertEntry codec targetKb e).finalQ = (e.quality : ℚ) / 100 ∧
    (convertEntry codec targetKb e).blob = codec e.img ((e.quality : ℚ) / 100) := by
  rcases h with h | ⟨t, rfl, ht⟩
  · subst h
    exact ⟨rfl, rfl, rfl⟩
  · simp only [convertEntry]
    rw [if_neg (by omega : ¬ 0 < t)]
    exact ⟨rfl, rfl, rfl⟩

/-- Witness for C6 with an empty/non-numeric target size. -/
theorem c6_witness :
    ((none : Option ℤ) = none ∨ ∃ t, (none : Option ℤ) = some t ∧ t ≤ 0) ∧
    ((convertEntry tinyCodec none ⟨70, [], none⟩).tried = [(70 : ℚ) / 100] ∧
     (convertEntry tinyCodec none ⟨70, [], none⟩).finalQ = (70 : ℚ) / 100 ∧
     (convertEntry tinyCodec none ⟨70, [], none⟩).blob = tinyCodec [] ((70 : ℚ) / 100)) := by
  refine ⟨Or.inl rfl, ?_⟩
  have h := c6_invalid_budget_single_call tinyCodec ⟨70, [], none⟩ none (Or.inl rfl)
  norm_num at h ⊢
  exact h

/-- Claim C7: when the first encode at the initial quality already fits the
budget, the while condition fails at once: exactly one codec invocation, and
the quality is unchanged (the reported quality equals the entry's integer
quality). -/
theorem c7_budget_satisfied_single_call (codec : Codec) (e : Entry) (t : ℤ)
    (ht : 0 < t)
    (hfit : ((codec e.img ((e.quality : ℚ) / 100)).size : ℤ) ≤ t * 1024) :
    (convertEntry codec (some t) e).tried = [(e.quality : ℚ) / 100] ∧
    (convertEntry codec (some t) e).finalQ = (e.quality : ℚ) / 100 ∧
    (convertEntry codec (some t) e).blob = codec e.img ((e.quality : ℚ) / 100) ∧
    (convertEntry codec (some t) e).reported = e.quality := by
  have hloop : searchLoop codec e.img (t * 1024) ((e.quality : ℚ) / 100)
      (codec e.img ((e.quality : ℚ) / 100))
      = ⟨(e.quality : ℚ) / 100, codec e.img ((e.quality : ℚ) / 100), []⟩ := by
    rw [searchLoop]
    rw [dif_neg]
    intro hcon
    exact absurd hcon.1 (not_lt.mpr hfit)
  have hrep : jsRound ((e.quality : ℚ)) = e.quality := by
    rw [jsRound, Int.floor_int_add e.quality (1/2 : ℚ)]
    norm_num
  simp [convertEntry, if_pos ht, hloop, hrep]

/-- Witness for C7: a five-byte blob fits a 1 kB budget at once. -/
theorem c7_witness :
    (0 : ℤ) < 1 ∧
    ((tinyCodec [] ((70 : ℚ) / 100)).size : ℤ) ≤ 1 * 1024 ∧
    ((convertEntry tinyCodec (some 1) ⟨70, [], none⟩).tried = [(70 : ℚ) / 100] ∧
     (convertEntry tinyCodec (some 1) ⟨70, [], none⟩).finalQ = (70 : ℚ) / 100 ∧
     (convertEntry tinyCodec (some 1) ⟨70, [], none⟩).blob = tinyCodec [] ((70 : ℚ) / 100) ∧
     (convertEntry tinyCodec (some 1) ⟨70, [], none⟩).reported = 70) := by
  refine ⟨by norm_num, by norm_num [tinyCodec], ?_⟩
  have h := c7_budget_satisfied_single_call tinyCodec ⟨70, [], none⟩ 1 (by norm_num)
    (by norm_num [tinyCodec])
  norm_num at h ⊢
  exact h

/-- Claim C9: for a deterministic codec the whole conversion is deterministic:
two runs with codecs that agree pointwise (in particular two runs with the same
codec) produce identical results — same tried-quality sequence, same final
blob, same reported quality, same updated entry. -/
theorem c9_deterministic (c1 c2 : Codec) (targetKb : Option ℤ) (e : Entry)
    (h : ∀ img q, c1 img q = c2 img q) :
    convertEntry c1 targetKb e = convertEntry c2 targetKb e := by
  have hc : c1 = c2 := funext fun img => funext fun q => h img q
  rw [hc]

/-- Witness for C9 with a concrete codec, budget and entry. -/
theorem c9_witness :
    (∀ img q, tinyCodec img q = tinyCodec img q) ∧
    convertEntry tinyCodec (some 1) ⟨70, [], none⟩
      = convertEntry tinyCodec (some 1) ⟨70, [], none⟩ :=
  ⟨fun _ _ => rfl, c9_deterministic tinyCodec tinyCodec (some 1) ⟨70, [], none⟩ (fun _ _ => rfl)⟩

/-- Claim C10: "convert all" walks the entries in order; an entry whose
`convertedBlob` is already set is passed through unchanged with zero codec
invocations, and list length (hence order and positions) is preserved. -/
theorem c10_convertAll_frame (codec : Codec) (targetKb : Option ℤ) (es : List Entry) :
    (convertAll codec targetKb es).length = es.length ∧
    ∀ (i : ℕ) (e : Entry), es[i]? = some e → e.convertedBlob.isSome →
      (convertAll codec targetKb es)[i]? = some (e, 0) := by
  induction es with
  | nil =>
      refine ⟨rfl, ?_⟩
      intro i e hie
      simp at hie
  | cons e rest ih =>
      constructor
      · cases hb : e.convertedBlob <;> simp [convertAll, hb, ih.1]
      · intro i f hif hsome
        cases i with
        | zero =>
            simp at hif
            subst hif
            obtain ⟨b, hb⟩ := Option.isSome_iff_exists.mp hsome
            simp [convertAll, hb]
        | succ j =>
            simp at hif
            have hj := ih.2 j f hif hsome
            cases hb : e.convertedBlob <;> simp [convertAll, hb, hj]

/-- Witness for C10 on a two-entry list whose first entry is already
converted. -/
theorem c10_witness :
    ((convertAll tinyCodec none [⟨40, [], some ⟨7, []⟩⟩, ⟨50, [], none⟩]).length
        = ([⟨40, [], some ⟨7, []⟩⟩, ⟨50, [], none⟩] : List Entry).length) ∧
    (([⟨40, [], some ⟨7, []⟩⟩, ⟨50, [], none⟩] : List Entry)[0]?
        = some ⟨40, [], some ⟨7, []⟩⟩) ∧
    (convertAll tinyCodec none [⟨40, [], some ⟨7, []⟩⟩, ⟨50, [], none⟩])[0]?
        = some (⟨40, [], some ⟨7, []⟩⟩, 0) := by
  have h := c10_convertAll_frame tinyCodec none [⟨40, [], some ⟨7, []⟩⟩, ⟨50, [], none⟩]
  exact ⟨h.1, rfl, h.2 0 ⟨40, [], some ⟨7, []⟩⟩ rfl rfl⟩

/-- One decrement step shifts the remaining-steps ceiling down by one. -/
theorem ceil_step (q : ℚ) : ⌈(q - 1/20 - 1/5) * 20⌉ = ⌈(q - 1/5) * 20⌉ - 1 := by
  have e1 : (q - 1/20 - 1/5) * 20 = (q - 1/5) * 20 - 1 := by ring
  rw [e1, Int.ceil_sub_one]

/-- Above the floor, at least one step remains. -/
theorem ceil_ge_one (q : ℚ) (h : 1/5 < q) : 1 ≤ ⌈(q - 1/5) * 20⌉ :=
  Int.ceil_pos.mpr (by linarith)

/-- Every quality fraction the loop passes to the codec is strictly greater
than `0.15 = 0.20 - 0.05`: each tried value is one step below a value that was
still above the floor. -/
theorem searchLoop_trace_gt (codec : Codec) (img : List Pixel) (target : ℤ)
    (q : ℚ) (b : Blob) :
    ∀ x ∈ (searchLoop codec img target q b).trace, 3/20 < x := by
  induction q, b using searchLoop.induct codec img target with
  | case1 q b h q2 b2 ih =>
      intro x hx
      rw [searchLoop, dif_pos h] at hx
      simp only at hx
      rcases List.mem_cons.mp hx with hx | hx
      · subst hx; linarith [h.2]
      · exact ih x hx
  | case2 q b h =>
      intro x hx
      rw [searchLoop, dif_neg h] at hx
      simp at hx

/-- When the loop stops, either the size constraint is met or the quality is
at (or below) the floor. -/
theorem searchLoop_post (codec : Codec) (img : List Pixel) (target : ℤ)
    (q : ℚ) (b : Blob) :
    ((searchLoop codec img target q b).blob.size : ℤ) ≤ target ∨
    (searchLoop codec img target q b).q ≤ 1/5 := by
  induction q, b using searchLoop.induct codec img target with
  | case1 q b h q2 b2 ih =>
      rw [searchLoop, dif_pos h]
      exact ih
  | case2 q b h =>
      rw [searchLoop, dif_neg h]
      rcases not_and_or.mp h with h1 | h2
      · exact Or.inl (le_of_not_lt h1)
      · exact Or.inr (le_of_not_lt h2)

/-- The loop performs at most `⌈(q - 0.20) / 0.05⌉` re-encode invocations. -/
theorem searchLoop_len_le (codec : Codec) (img : List Pixel) (target : ℤ)
    (q : ℚ) (b : Blob) :
    (searchLoop codec img target q b).trace.length ≤ (⌈(q - 1/5) * 20⌉).toNat := by
  induction q, b using searchLoop.induct codec img target with
  | case1 q b h q2 b2 ih =>
      rw [searchLoop, dif_pos h]
      unfold_let q2 b2 at ih
      simp only [List.length_cons]
      have hcs := ceil_step q
      have hc1 := ceil_ge_one q h.2
      omega
  | case2 q b h =>
      rw [searchLoop, dif_neg h]
      simp

/-- The final quality is the initial quality minus `0.05` per re-encode. -/
theorem searchLoop_q_eq (codec : Codec) (img : List Pixel) (target : ℤ)
    (q : ℚ) (b : Blob) :
    (searchLoop codec img target q b).q
      = q - ((searchLoop codec img target q b).trace.length : ℚ) / 20 := by
  induction q, b using searchLoop.induct codec img target with
  | case1 q b h q2 b2 ih =>
      rw [searchLoop, dif_pos h]
      unfold_let q2 b2 at ih
      simp only [List.length_cons] at ih ⊢
      push_cast at ih ⊢
      linarith [ih]
  | case2 q b h =>
      rw [searchLoop, dif_neg h]
      simp

/-- Under a budget no encode can meet, the loop walks all the way down: it
performs exactly `⌈(q - 0.20) / 0.05⌉` re-encodes, and the returned buffer is
the codec's output at the final quality. -/
theorem searchLoop_big (codec : Codec) (img : List Pixel) (target : ℤ)
    (hbig : ∀ qq : ℚ, ((codec img qq).size : ℤ) > target) (q : ℚ) (b : Blob) :
    b = codec img q →
      (searchLoop codec img target q b).trace.length = (⌈(q - 1/5) * 20⌉).toNat ∧
      (searchLoop codec img target q b).blob
        = codec img (searchLoop codec img target q b).q := by
  induction q, b using searchLoop.induct codec img target with
  | case1 q b h q2 b2 ih =>
      intro hb
      rw [searchLoop, dif_pos h]
      obtain ⟨ih1, ih2⟩ := ih rfl
      unfold_let q2 b2 at ih1 ih2
      refine ⟨?_, ih2⟩
      simp only [List.length_cons]
      have hcs := ceil_step q
      have hc1 := ceil_ge_one q h.2
      omega
  | case2 q b h =>
      intro hb
      have hs : (b.size : ℤ) > target := by rw [hb]; exact hbig q
      have hq : ¬ (1/5 : ℚ) < q := fun hq => h ⟨hs, hq⟩
      rw [searchLoop, dif_neg h]
      have hle : ⌈(q - 1/5) * 20⌉ ≤ 0 := by
        refine Int.ceil_le.mpr ?_
        push_cast
        nlinarith [le_of_not_lt hq]
      constructor
      · simp only [List.length_nil]
        omega
      · exact hb

/-- Concrete run: starting quality fraction `0.33` against a budget no encode
can meet walks `0.33 → 0.28 → 0.23 → 0.18` and stops below the floor. -/
theorem searchLoop33 :
    searchLoop bigCodec [] (1 * 1024) (33/100) (bigCodec [] (33/100))
      = ⟨9/50, ⟨1000000, []⟩, [7/25, 23/100, 9/50]⟩ := by
  rw [searchLoop]; norm_num [bigCodec]
  rw [searchLoop]; norm_num [bigCodec]
  rw [searchLoop]; norm_num [bigCodec]
  rw [searchLoop]; norm_num [bigCodec]

/-- Claim C1 counterexample: with initial quality fraction `0.33 ∈ (0.20, 1.0]`
and an unreachable budget, the loop passes quality `0.18 < 0.20` to the codec:
the floor can be undershot by one step when the start is not aligned to the
`0.05` grid. -/
theorem c1_counterexample :
    (1:ℚ)/5 < 33/100 ∧ (33:ℚ)/100 ≤ 1 ∧
    (9/50 : ℚ) ∈ (searchLoop bigCodec [] (1 * 1024) (33/100) (bigCodec [] (33/100))).trace ∧
    (9/50 : ℚ) < 1/5 := by
  refine ⟨by norm_num, by norm_num, ?_, by norm_num⟩
  rw [searchLoop33]
  simp

/-- Claim C1 (amended): every quality fraction the adaptive loop passes to the
codec is strictly greater than `0.15` (the floor minus one step); it equals or
stays above the `0.20` floor exactly when the start is aligned to the `0.05`
grid. -/
theorem c1_loop_quality_above_floor_minus_step (codec : Codec) (img : List Pixel)
    (target : ℤ) (q : ℚ) (b : Blob) (x : ℚ)
    (hx : x ∈ (searchLoop codec img target q b).trace) :
    3/20 < x :=
  searchLoop_trace_gt codec img target q b x hx

/-- Witness for C1 at the concrete `0.33` run. -/
theorem c1_witness :
    (9/50 : ℚ) ∈ (searchLoop bigCodec [] (1 * 1024) (33/100) (bigCodec [] (33/100))).trace ∧
    (3:ℚ)/20 < 9/50 := by
  have hm : (9/50 : ℚ) ∈ (searchLoop bigCodec [] (1 * 1024) (33/100)
      (bigCodec [] (33/100))).trace := by
    rw [searchLoop33]
    simp
  exact ⟨hm, c1_loop_quality_above_floor_minus_step bigCodec [] (1 * 1024) (33/100)
    (bigCodec [] (33/100)) (9/50) hm⟩

/-- Claim C3 counterexample: starting quality 33 (fraction `0.33 ∈ (0.20, 1]`)
against an unreachable budget performs 3 decrements (`0.33 → 0.28 → 0.23 →
0.18`), not `floor((0.33 - 0.20)/0.05) = 2` as claimed: the count is a
ceiling, not a floor. -/
theorem c3_counterexample :
    (1:ℚ)/5 < 33/100 ∧ (33:ℚ)/100 ≤ 1 ∧
    (∀ qq : ℚ, ((bigCodec [] qq).size : ℤ) > 1 * 1024) ∧
    (convertEntry bigCodec (some 1) ⟨33, [], none⟩).tried.length - 1
      ≠ (⌊((33:ℚ)/100 - 1/5) * 20⌋).toNat := by
  refine ⟨by norm_num, by norm_num, by intro qq; norm_num [bigCodec], ?_⟩
  have hconv : (convertEntry bigCodec (some 1) ⟨33, [], none⟩).tried
      = (((33:ℤ) : ℚ)/100)
          :: (searchLoop bigCodec [] (1 * 1024) (((33:ℤ) : ℚ)/100)
              (bigCodec [] (((33:ℤ) : ℚ)/100))).trace := by
    norm_num [convertEntry]
  have h33 : (((33:ℤ) : ℚ)/100) = 33/100 := by norm_num
  rw [hconv, h33, searchLoop33]
  have hfl : ⌊((33:ℚ)/100 - 1/5) * 20⌋ = 2 := by
    have e2 : ((33:ℚ)/100 - 1/5) * 20 = 13/5 := by norm_num
    rw [e2]
    rw [Int.floor_eq_iff]
    norm_num
  rw [hfl]
  simp

/-- Claim C3 (amended): for a budget unreachable even at the floor, the loop
performs exactly `⌈(startQuality - 0.20)/0.05⌉` decrements (so one more codec
invocation than that), the final quality is the start minus `0.05` per
decrement, the returned buffer is the codec's output at that final quality, and
the reported quality is its rounded percent value.  For start `0.90` that is
14 decrements, 15 invocations, reported quality 20. -/
theorem c3_unreachable_budget_steps (codec : Codec) (e : Entry) (t : ℤ)
    (ht : 0 < t)
    (hbig : ∀ qq : ℚ, ((codec e.img qq).size : ℤ) > t * 1024)
    (hq0 : (1:ℚ)/5 < (e.quality : ℚ) / 100) (hq1 : (e.quality : ℚ) / 100 ≤ 1) :
    (convertEntry codec (some t) e).tried.length
        = (⌈((e.quality : ℚ) / 100 - 1/5) * 20⌉).toNat + 1 ∧
    (convertEntry codec (some t) e).finalQ
        = (e.quality : ℚ) / 100
            - ((⌈((e.quality : ℚ) / 100 - 1/5) * 20⌉).toNat : ℚ) / 20 ∧
    (convertEntry codec (some t) e).blob
        = codec e.img ((convertEntry codec (some t) e).finalQ) ∧
    (convertEntry codec (some t) e).reported
        = jsRound ((convertEntry codec (some t) e).finalQ * 100) := by
  have hsl := searchLoop_big codec e.img (t * 1024) hbig ((e.quality : ℚ) / 100)
    (codec e.img ((e.quality : ℚ) / 100)) rfl
  have hqe := searchLoop_q_eq codec e.img (t * 1024) ((e.quality : ℚ) / 100)
    (codec e.img ((e.quality : ℚ) / 100))
  simp only [convertEntry, if_pos ht]
  refine ⟨?_, ?_, hsl.2, trivial⟩
  · simp [hsl.1]
  · rw [hqe, hsl.1]

/-- Witness for C3: the spec's end-to-end example, start quality 90 against an
unreachable one-kilobyte budget: 15 total codec invocations (14 decrements)
and reported quality 20. -/
theorem c3_witness :
    (0:ℤ) < 1 ∧
    (∀ qq : ℚ, ((bigCodec [] qq).size : ℤ) > 1 * 1024) ∧
    (1:ℚ)/5 < ((90:ℤ) : ℚ) / 100 ∧ ((90:ℤ) : ℚ) / 100 ≤ 1 ∧
    (⌈(((90:ℤ) : ℚ) / 100 - 1/5) * 20⌉).toNat = 14 ∧
    (convertEntry bigCodec (some 1) ⟨90, [], none⟩).tried.length = 15 ∧
    (convertEntry bigCodec (some 1) ⟨90, [], none⟩).finalQ = 1/5 ∧
    (convertEntry bigCodec (some 1) ⟨90, [], none⟩).reported = 20 := by
  have hbig : ∀ qq : ℚ, ((bigCodec [] qq).size : ℤ) > 1 * 1024 := by
    intro qq; norm_num [bigCodec]
  have hc : (⌈(((90:ℤ) : ℚ) / 100 - 1/5) * 20⌉).toNat = 14 := by
    have e2 : (((90:ℤ) : ℚ) / 100 - 1/5) * 20 = ((14:ℤ) : ℚ) := by norm_num
    rw [e2, Int.ceil_intCast]
    rfl
  have h := c3_unreachable_budget_steps bigCodec ⟨90, [], none⟩ 1 (by norm_num) hbig
    (by norm_num) (by norm_num)
  obtain ⟨h1, h2, h3, h4⟩ := h
  refine ⟨by norm_num, hbig, by norm_num, by norm_num, hc, ?_, ?_, ?_⟩
  · rw [h1, hc]
  · rw [h2, hc]
    norm_num
  · rw [h4, h2, hc]
    norm_num [jsRound]

/-- Claim C8: the adaptive loop always terminates in a state where either the
buffer fits the budget or the quality is no longer above the `0.20` floor,
performs at most `⌈(startQuality - 0.20)/0.05⌉` re-encode invocations, and
lowers the quality by exactly `0.05` per re-encode. -/
theorem c8_termination_bound (codec : Codec) (img : List Pixel) (target : ℤ)
    (q : ℚ) (b : Blob) :
    (((searchLoop codec img target q b).blob.size : ℤ) ≤ target ∨
      (searchLoop codec img target q b).q ≤ 1/5) ∧
    (searchLoop codec img target q b).trace.length ≤ (⌈(q - 1/5) * 20⌉).toNat ∧
    (searchLoop codec img target q b).q
      = q - ((searchLoop codec img target q b).trace.length : ℚ) / 20 :=
  ⟨searchLoop_post codec img target q b, searchLoop_len_le codec img target q b,
   searchLoop_q_eq codec img target q b⟩
